import Mathlib

/-!
Shallow embedding of the layout/paint core of the rendering engine:
render boxes (`src/components/main/layout/box.rs`), the display list
(`src/components/gfx/display_list.rs`) and per-node layout-data attachment
(`src/components/main/layout/aux.rs`).

Machine integers: `Au` (app units, an `int` newtype in the source) is modelled
as `Int`; `uint` quantities (range offsets and lengths, counters) as `Nat`.
Floating-point style values (font sizes, scale factors, color channels) are
modelled as exact rationals, with the `as i32` cast modelled as truncation
toward zero.
-/

/-- App units (`Au`), an `int` newtype in the source; modelled as `Int`. -/
abbrev Au := Int

/-- Truncation of a rational toward zero, modelling the Rust `as i32` cast of
a float (for values within range). -/
def ratTrunc (q : ℚ) : Int :=
  if 0 ≤ q then Int.floor q else -Int.floor (-q)

/-- Source `Au::from_px(px: int) -> Au { Au(px * 60) }`. -/
def Au.from_px (px : Int) : Au := px * 60

/-- Source `Au::from_frac_px(px: float) -> Au { Au((px * 60f) as i32) }`. -/
def Au.from_frac_px (px : ℚ) : Au := ratTrunc (px * 60)

/-- Source `Au::scale_by(self, factor: float)`: multiply by a float factor and
cast back to an integer number of app units. -/
def Au.scale_by (a : Au) (factor : ℚ) : Au := ratTrunc ((a : ℚ) * factor)

/-- Point (`geom::Point2D<Au>`). -/
structure Point where
  x : Au
  y : Au
deriving DecidableEq, Repr

/-- Size (`geom::Size2D<Au>`). -/
structure Size where
  width : Au
  height : Au
deriving DecidableEq, Repr

/-- Rect (`geom::Rect<Au>`). -/
structure Rect where
  origin : Point
  size : Size
deriving DecidableEq, Repr

/-- Source `geom::Rect::translate`: move the origin by a point offset. -/
def Rect.translate (r : Rect) (p : Point) : Rect :=
  ⟨⟨r.origin.x + p.x, r.origin.y + p.y⟩, r.size⟩

/-- Source `geom::Rect::intersects`: strict open-interval overlap on both
axes. -/
def Rect.intersects (a b : Rect) : Bool :=
  decide (b.origin.x < a.origin.x + a.size.width ∧
    a.origin.x < b.origin.x + b.size.width ∧
    b.origin.y < a.origin.y + a.size.height ∧
    a.origin.y < b.origin.y + b.size.height)

/-- Per-side offsets (`geom::SideOffsets2D<T>`). -/
structure SideOffsets2D (α : Type) where
  top : α
  right : α
  bottom : α
  left : α
deriving DecidableEq, Repr

/-- Per-side offsets specialised to app units. -/
abbrev SideOffsets := SideOffsets2D Au

/-- Source `SideOffsets2D::is_zero`. -/
def SideOffsets.is_zero (s : SideOffsets) : Bool :=
  decide (s.top = 0 ∧ s.right = 0 ∧ s.bottom = 0 ∧ s.left = 0)

/-- Modelled from the spec: `servo_util::range::Range` is not under `src/`.
A `Range` is `(begin, length)` describing a contiguous sub-span of a text
run's character sequence (both fields are `uint` in the source). -/
structure Range where
  begin : Nat
  length : Nat
deriving DecidableEq, Repr

/-- Source `Range::end()` (named `stop` here because `end` is reserved). -/
def Range.stop (r : Range) : Nat := r.begin + r.length

/-- Modelled from the spec: `Range::shift_by` advances the range's start
(called in `split_to_width` only with the non-negative slice length). -/
def Range.shift_by (r : Range) (i : Nat) : Range :=
  ⟨r.begin + i, r.length⟩

/-- Modelled from the spec: `Range::extend_by` extends the range to include
`i` further positions (called only with the non-negative slice length). -/
def Range.extend_by (r : Range) (i : Nat) : Range :=
  ⟨r.begin, r.length + i⟩

/-- Membership of a character position in a range. -/
def Range.containsPos (r : Range) (p : Nat) : Prop :=
  r.begin ≤ p ∧ p < r.begin + r.length

instance (r : Range) (p : Nat) : Decidable (r.containsPos p) := by
  unfold Range.containsPos
  infer_instance

/-- Modelled from the spec: one natural (non-breakable) sub-slice of a text
run, as yielded by `TextRun::iter_slices_for_range` (`text_run.rs` is not
under `src/`). Each slice is tagged whitespace/non-whitespace
(`glyphs.is_whitespace()`), has an advance-width metric
(`metrics_for_slice(...).advance_width`, an `Au`) and covers `len` character
positions. -/
structure Slice where
  whitespace : Bool
  advance : Au
  len : Nat
deriving DecidableEq, Repr

/-- Sum of the character lengths of a slice list. -/
def sliceLenSum (slices : List Slice) : Nat :=
  (slices.map Slice.len).sum

/-- Sum of the advance widths of a slice list. -/
def sliceAdvanceSum (slices : List Slice) : Au :=
  (slices.map Slice.advance).sum

/-- State maintained by the loop in `TextRenderBox::split_to_width`:
the processed-pieces counter, the remaining width budget, the growing left
range, the optional right range, and (instrumentation, not returned by the
source) the list of whitespace sub-ranges that the loop skipped ("trimmed"). -/
structure SplitLoopState where
  count : Nat
  remaining : Au
  left : Range
  right : Option Range
  trimmed : List Range
deriving DecidableEq, Repr

/-- The slice loop of `TextRenderBox::split_to_width` (box.rs lines 426-479).
`pos` is the absolute character position of the next slice (`offset +
slice_range.begin()` in the source); `rangeStop` is `self.range.end()`.
Processing stops (`should_continue = false`) at the first slice whose advance
exceeds the remaining budget. -/
def splitLoop (startsLine : Bool) (rangeStop : Nat) :
    List Slice → Nat → SplitLoopState → SplitLoopState
  | [], _, st => st
  | s :: rest, pos, st =>
    if s.advance ≤ st.remaining then
      if startsLine ∧ st.count = 0 ∧ s.whitespace then
        -- case: skipping leading trimmable whitespace
        splitLoop startsLine rangeStop rest (pos + s.len)
          { st with
            count := st.count + 1,
            left := st.left.shift_by s.len,
            trimmed := st.trimmed ++ [⟨pos, s.len⟩] }
      else
        -- case: enlarging span
        splitLoop startsLine rangeStop rest (pos + s.len)
          { st with
            count := st.count + 1,
            remaining := st.remaining - s.advance,
            left := st.left.extend_by s.len }
    else
      -- the advance is more than the remaining width: stop after this slice
      let sliceBegin := pos
      let sliceEnd := pos + s.len
      if s.whitespace then
        -- skip trimmable trailing whitespace, then split any remainder
        { st with
          count := st.count + 1,
          right := if sliceEnd < rangeStop then
              some ⟨sliceEnd, rangeStop - sliceEnd⟩
            else
              st.right,
          trimmed := st.trimmed ++ [⟨pos, s.len⟩] }
      else
        -- a word is never split mid-slice: the rest becomes the right range
        { st with
          count := st.count + 1,
          right := if sliceBegin < rangeStop then
              some ⟨sliceBegin, rangeStop - sliceBegin⟩
            else
              st.right }

/-- Result of `TextRenderBox::split_to_width`: `didFit = true` for
`SplitDidFit`, `false` for `SplitDidNotFit`. The sub-boxes are represented by
their ranges (`text::adapt_textbox_with_range` builds a box sharing the same
run). `piecesProcessedCount` and `trimmed` are instrumentation mirroring the
loop's local counter and the whitespace sub-ranges it skipped. -/
structure SplitResult where
  didFit : Bool
  left : Option Range
  right : Option Range
  piecesProcessedCount : Nat
  trimmed : List Range
deriving DecidableEq, Repr

/-- Source `TextRenderBox::split_to_width` (box.rs lines 415-502), with the
run's natural slice decomposition of the box's range passed explicitly
(`iter_slices_for_range` yields `slices` in order, covering `range`). -/
def split_to_width (range : Range) (slices : List Slice) (max_width : Au)
    (starts_line : Bool) : SplitResult :=
  let st := splitLoop starts_line range.stop slices range.begin
    { count := 0, remaining := max_width, left := ⟨range.begin, 0⟩,
      right := none, trimmed := [] }
  let left_box : Option Range := if st.left.length > 0 then some st.left else none
  { didFit := !(st.count == 1 || left_box.isNone),
    left := left_box,
    right := st.right,
    piecesProcessedCount := st.count,
    trimmed := st.trimmed }

/-- Modelled from the spec: the minimum and preferred widths of a text box
(`TextRenderBox::minimum_and_preferred_widths`, box.rs lines 384-395).
`run.min_width_for_range` (text_run.rs, not under `src/`) is the widest
non-breakable piece; the maximum natural line width over a range with no
forced line breaks is the advance of the whole range. `guessed` is
`self.base.guess_width()`. -/
def text_minimum_and_preferred_widths (guessed : Au) (slices : List Slice) :
    Au × Au :=
  (guessed + (slices.map Slice.advance).foldl max 0,
    guessed + sliceAdvanceSum slices)

/-- List of an optional range (empty when absent). -/
def optToList : Option Range → List Range
  | none => []
  | some r => [r]

/-- Number of ranges in `rs` that contain position `p`. -/
def coverCount (rs : List Range) (p : Nat) : Nat :=
  rs.countP fun r => decide (r.containsPos p)

/-! Styles, nodes and font machinery (`newcss` values consumed via
`node.style()`; the node tree itself lives outside this core and is modelled
as each node's computed-style snapshot together with its parent chain). -/

/-- Color with float channels (`newcss::color::Color` / gfx color; channels
modelled as exact rationals). -/
structure Color where
  r : ℚ
  g : ℚ
  b : ℚ
  alpha : ℚ
deriving DecidableEq, Repr

/-- Float `ApproxEq::approx_eq` with the standard approx epsilon `1.0e-6`. -/
def float_approx_eq (x y : ℚ) : Bool :=
  decide (|x - y| < 1 / 1000000)

/-- Generic font families (`newcss::units`). -/
inductive GenericFontFamily
  | Serif
  | SansSerif
  | Cursive
  | Fantasy
  | Monospace
deriving DecidableEq, Repr

/-- Source `CSSFontFamily` values. -/
inductive CSSFontFamily
  | CSSFontFamilyFamilyName (name : String)
  | CSSFontFamilyGenericFamily (family : GenericFontFamily)
deriving DecidableEq, Repr

/-- Computed font-size values; the source matches `CSSFontSizeLength(Px l)`,
`CSSFontSizeLength(Em l)` and defaults everything else to 16 px. -/
inductive CSSFontSize
  | CSSFontSizeLengthPx (length : ℚ)
  | CSSFontSizeLengthEm (length : ℚ)
  | CSSFontSizeOther
deriving DecidableEq, Repr

/-- Source `CSSFontStyle` keyword values. -/
inductive CSSFontStyleKeyword
  | CSSFontStyleNormal
  | CSSFontStyleItalic
  | CSSFontStyleOblique
deriving DecidableEq, Repr

/-- Source `CSSTextDecoration` values. -/
inductive CSSTextDecoration
  | CSSTextDecorationNone
  | CSSTextDecorationUnderline
  | CSSTextDecorationOverline
  | CSSTextDecorationLineThrough
deriving DecidableEq, Repr

/-- Display values: the decoration-propagation code only distinguishes
inline-block and inline-table from everything else. -/
inductive CSSDisplay
  | CSSDisplayInlineBlock
  | CSSDisplayInlineTable
  | CSSDisplayOtherValue
deriving DecidableEq, Repr

/-- Position values: the propagation code only tests for `static`. -/
inductive CSSPosition
  | CSSPositionStatic
  | CSSPositionOtherValue
deriving DecidableEq, Repr

/-- Float values: the propagation code only tests for `none`. -/
inductive CSSFloat
  | CSSFloatNone
  | CSSFloatOtherValue
deriving DecidableEq, Repr

/-- Source `CSSLineHeight` values (`normal`, number, Em/Px length,
percentage). -/
inductive CSSLineHeight
  | CSSLineHeightNormal
  | CSSLineHeightNumber (l : ℚ)
  | CSSLineHeightLengthEm (l : ℚ)
  | CSSLineHeightLengthPx (l : ℚ)
  | CSSLineHeightPercentage (p : ℚ)
deriving DecidableEq, Repr

/-- Modelled from the spec: `MaybeAuto` (`layout::model`, not under `src/`):
a specified length or `auto`, with `specified_or_zero` resolving auto to 0. -/
inductive MaybeAuto
  | Auto
  | Specified (v : Au)
deriving DecidableEq, Repr

/-- Modelled from the spec: auto resolves to zero unless otherwise
specified. -/
def MaybeAuto.specified_or_zero : MaybeAuto → Au
  | .Auto => 0
  | .Specified v => v

/-- Computed-style snapshot of one node (`CompleteStyle`): exactly the style
fields this core reads.  Width/margin/padding/border lengths are modelled as
already-resolved app units (`layout::model`'s length resolution is not under
`src/`). -/
structure CompleteStyle where
  background_color : Color
  color : Color
  border_top_color : Color
  border_right_color : Color
  border_bottom_color : Color
  border_left_color : Color
  font_family : List CSSFontFamily
  font_size : CSSFontSize
  font_style : CSSFontStyleKeyword
  text_decoration : CSSTextDecoration
  display : CSSDisplay
  position : CSSPosition
  float : CSSFloat
  line_height : CSSLineHeight
  width : MaybeAuto
  margin_left : MaybeAuto
  margin_right : MaybeAuto
  padding_left : Au
  padding_right : Au
  border_left_width : Au
  border_right_width : Au
deriving DecidableEq, Repr

/-- One DOM node as seen by layout: whether it is an element, and its
computed style. -/
structure NodeInfo where
  is_element : Bool
  style : CompleteStyle
deriving DecidableEq, Repr

/-- A DOM node together with its parent chain (self first, then ancestors
upward), which is all the box code traverses. -/
structure NodeChain where
  self : NodeInfo
  ancestors : List NodeInfo
deriving DecidableEq, Repr

/-- The node and its ancestors, nearest first. -/
def NodeChain.nodes (n : NodeChain) : List NodeInfo :=
  n.self :: n.ancestors

/-- The chain starting at the nearest ancestor-or-self element (empty when
the walk in `RenderBoxBase::nearest_ancestor_element` would fail). -/
def nearestAncestorElementChain (n : NodeChain) : List NodeInfo :=
  n.nodes.dropWhile fun x => !x.is_element

/-- Source `RenderBoxBase::nearest_ancestor_element` (box.rs lines 710-719):
walk the parent chain until an element node is found; `none` models the
`fail!` when no ancestor-or-self element exists. -/
def nearest_ancestor_element (n : NodeChain) : Option NodeInfo :=
  (nearestAncestorElementChain n).head?

/-- Modelled from the spec: `BoxModel` (`layout::model`, not under `src/`):
the border and padding widths per side used by the box model. -/
structure BoxModel where
  border : SideOffsets
  padding : SideOffsets
deriving DecidableEq, Repr

/-- Source `RenderBoxBase` (box.rs lines 612-626): the DOM node, the position
rect relative to the owning flow, the box-model parameters and a debug id. -/
structure RenderBoxBase where
  node : NodeChain
  position : Rect
  model : BoxModel
  id : Int
deriving DecidableEq, Repr

/-- Source `RenderBoxBase::id()` (box.rs lines 640-642): the accessor body is
literally `0`; the stored debug id is ignored.  (Named `getId` because the
field is already called `id`.) -/
def RenderBoxBase.getId (_b : RenderBoxBase) : Int := 0

/-- Source `RenderBoxBase::style`: the box's own node's computed style. -/
def RenderBoxBase.style (b : RenderBoxBase) : CompleteStyle :=
  b.node.self.style

/-- Source `RenderBoxBase::guess_width` (box.rs lines 644-669): specified
width plus resolved margins, paddings and borders, with auto resolving to
zero. -/
def RenderBoxBase.guess_width (b : RenderBoxBase) : Au :=
  b.style.width.specified_or_zero
    + b.style.margin_left.specified_or_zero
    + b.style.margin_right.specified_or_zero
    + b.style.padding_left + b.style.padding_right
    + b.style.border_left_width + b.style.border_right_width

/-- Font weights; the source always produces `FontWeight300`. -/
inductive FontWeight
  | FontWeight300
deriving DecidableEq, Repr

/-- Source `gfx::font::FontStyle`. -/
structure FontStyle where
  pt_size : ℚ
  weight : FontWeight
  italic : Bool
  oblique : Bool
  families : String
deriving DecidableEq, Repr

/-- The generic-family names used in `RenderBoxBase::font_style`. -/
def genericFamilyName : GenericFontFamily → String
  | .Serif => "serif"
  | .SansSerif => "sans-serif"
  | .Cursive => "cursive"
  | .Fantasy => "fantasy"
  | .Monospace => "monospace"

/-- Source `RenderBoxBase::font_style` (box.rs lines 732-773): converts the
nearest ancestor element's computed style to a rendering font style.  Note:
this reachable version neither reads nor writes any per-box cache.  `none`
models the `fail!` when no ancestor element exists. -/
def RenderBoxBase.font_style (b : RenderBoxBase) : Option FontStyle :=
  (nearest_ancestor_element b.node).map fun elt =>
    let families := elt.style.font_family.map fun fam =>
      match fam with
      | .CSSFontFamilyFamilyName s => s
      | .CSSFontFamilyGenericFamily g => genericFamilyName g
    let font_families := String.intercalate ", " families
    let font_size : ℚ := match elt.style.font_size with
      | .CSSFontSizeLengthPx length => length
      | .CSSFontSizeLengthEm length => length * 16
      | .CSSFontSizeOther => 16
    let io : Bool × Bool := match elt.style.font_style with
      | .CSSFontStyleNormal => (false, false)
      | .CSSFontStyleItalic => (true, false)
      | .CSSFontStyleOblique => (false, true)
    let italic := io.1
    let oblique := io.2
    { pt_size := font_size, weight := .FontWeight300, italic := italic,
      oblique := oblique, families := font_families }

/-- Source: the inner `get_propagated_text_decoration` of
`RenderBoxBase::text_decoration` (box.rs lines 797-829), CSS 2.1 § 16.3.1
propagation: skip non-element nodes; while the element is in flow (static,
not floated, not inline-block/inline-table) and declares no decoration of
its own, keep walking to the parent (default `none` at the chain's end). -/
def get_propagated_text_decoration : List NodeInfo → CSSTextDecoration
  | [] => .CSSTextDecorationNone
  | n :: parents =>
    if !n.is_element then
      get_propagated_text_decoration parents
    else
      let display_in_flow := match n.style.display with
        | .CSSDisplayInlineTable => false
        | .CSSDisplayInlineBlock => false
        | _ => true
      let in_flow := (n.style.position = .CSSPositionStatic)
        ∧ (n.style.float = .CSSFloatNone) ∧ display_in_flow = true
      let text_decoration := n.style.text_decoration
      if text_decoration = .CSSTextDecorationNone ∧ in_flow then
        get_propagated_text_decoration parents
      else
        text_decoration

/-- Source `RenderBoxBase::text_decoration` (box.rs lines 794-831): start the
propagation at the nearest ancestor element; `none` models the `fail!` when
no element exists.  This reachable version neither reads nor writes any
per-box cache. -/
def RenderBoxBase.text_decoration (b : RenderBoxBase) : Option CSSTextDecoration :=
  match nearestAncestorElementChain b.node with
  | [] => none
  | chain => some (get_propagated_text_decoration chain)

/-- Source `RenderBoxBase::line_height`: the nearest ancestor element's
line-height. -/
def RenderBoxBase.line_height (b : RenderBoxBase) : Option CSSLineHeight :=
  (nearest_ancestor_element b.node).map fun elt => elt.style.line_height

/-- Modelled from the spec: the metrics a text run supplies for a range
(`RunMetrics` of `metrics_for_range`; `text_run.rs` is not under `src/`):
advance width, bounding box and ascent. -/
structure RunMetrics where
  advance_width : Au
  bounding_box : Rect
  ascent : Au
deriving DecidableEq, Repr

/-- The data captured by `TextRun::serialize` and recovered by `deserialize`
in `DisplayItem::draw_into_context`: the underline flag of the run and the
ascent/underline-size metrics of its font. -/
structure SendableTextRun where
  underline : Bool
  ascent : Au
  underline_size : Au
deriving DecidableEq, Repr

/-- Modelled from the spec: a shared, immutable text run (`text_run.rs` is
not under `src/`).  It supplies, for any range, the ordered natural-slice
decomposition covering that range and the range metrics, plus the data its
serialization carries. -/
structure TextRun where
  slicesFor : Range → List Slice
  metricsFor : Range → RunMetrics
  sendable : SendableTextRun

/-- Source `TextRun::serialize`. -/
def TextRun.serialize (r : TextRun) : SendableTextRun :=
  r.sendable

/-- Source `GenericRenderBox` (box.rs lines 184-194). -/
structure GenericRenderBox where
  base : RenderBoxBase

/-- The image holder (`servo_net::image::holder`, an external collaborator):
both queries are non-blocking and absent until the image is decoded. -/
structure ImageHolder where
  size : Option Size
  image : Option Nat
deriving DecidableEq, Repr

/-- Source `ImageRenderBox` (box.rs lines 229-243).  The `width`/`height`
attribute lookups of `image_width`/`image_height` (via
`node.with_imm_element` and `FromStr`) are modelled as the already-parsed
optional pixel values. -/
structure ImageRenderBox where
  base : RenderBoxBase
  image : ImageHolder
  attr_width : Option Int
  attr_height : Option Int

/-- Source `TextRenderBox` (box.rs lines 349-353): a base, a shared run and
a range into it. -/
structure TextRenderBox where
  base : RenderBoxBase
  run : TextRun
  range : Range

/-- Source `UnscannedTextRenderBox` (box.rs lines 506-514): raw text plus
the cached font-style / text-decoration fields ("Cache font-style and
text-decoration to check whether this box can merge with another render
box").  A fresh box (`new`) has both caches `none`. -/
structure UnscannedTextRenderBox where
  base : RenderBoxBase
  text : List Char
  font_style : Option FontStyle
  text_decoration : Option CSSTextDecoration

/-- Source `RenderBoxClass` (box.rs lines 594-600). -/
inductive RenderBoxClass
  | GenericRenderBoxClass
  | ImageRenderBoxClass
  | TextRenderBoxClass
  | UnscannedTextRenderBoxClass
deriving DecidableEq, Repr

/-- The render box as a closed tagged variant over the four source box
structs (the source uses `@mut RenderBox` trait objects dispatched by
`class()`). -/
inductive RenderBox
  | generic (b : GenericRenderBox)
  | image (b : ImageRenderBox)
  | text (b : TextRenderBox)
  | unscannedText (b : UnscannedTextRenderBox)

/-- Source `RenderBox::class` as implemented by each variant. -/
def RenderBox.boxClass : RenderBox → RenderBoxClass
  | .generic _ => .GenericRenderBoxClass
  | .image _ => .ImageRenderBoxClass
  | .text _ => .TextRenderBoxClass
  | .unscannedText _ => .UnscannedTextRenderBoxClass

/-- Source `RenderBox::base` as implemented by each variant. -/
def RenderBox.base : RenderBox → RenderBoxBase
  | .generic b => b.base
  | .image b => b.base
  | .text b => b.base
  | .unscannedText b => b.base

/-- Source `ImageRenderBox::image_width` (box.rs lines 247-267): the width
attribute takes precedence; otherwise the decoded size, falling back to
0×0. -/
def ImageRenderBox.image_width (b : ImageRenderBox) : Au :=
  let px_width := match b.attr_width with
    | some w => w
    | none => (b.image.size.getD ⟨0, 0⟩).width
  Au.from_px px_width

/-- Source `ImageRenderBox::image_height` (box.rs lines 271-291). -/
def ImageRenderBox.image_height (b : ImageRenderBox) : Au :=
  let px_height := match b.attr_height with
    | some h => h
    | none => (b.image.size.getD ⟨0, 0⟩).height
  Au.from_px px_height

/-- Source `TextRenderBox::calculate_line_height` (box.rs lines 356-364);
`none` models the `fail!` inside `line_height()` when no ancestor element
exists.  The `normal` factor is the source's `1.14f`. -/
def TextRenderBox.calculate_line_height (b : TextRenderBox) (font_size : Au) :
    Option Au :=
  (RenderBoxBase.line_height b.base).map fun lh =>
    match lh with
    | .CSSLineHeightNormal => font_size.scale_by (57 / 50)
    | .CSSLineHeightNumber l => font_size.scale_by l
    | .CSSLineHeightLengthEm l => font_size.scale_by l
    | .CSSLineHeightLengthPx l => Au.from_frac_px l
    | .CSSLineHeightPercentage p => font_size.scale_by (p / 100)

/-- Source `RenderBox::is_whitespace_only`: the trait default is `false`;
only `UnscannedTextRenderBox` overrides it with `self.text.is_whitespace()`
(all characters whitespace; modelled with `Char.isWhitespace`). -/
def RenderBox.is_whitespace_only : RenderBox → Bool
  | .unscannedText u => u.text.all Char.isWhitespace
  | _ => false

/-- Source `RenderBox::box_height` per variant: Generic returns 0; Image
computes the decoded height (0 fallback) and writes it into
`base.position.size.height` before returning it; Text derives a line-height
scaled metric height without touching the box; UnscannedText `fail!`s
(`none`).  The returned box is the (possibly mutated) receiver. -/
def RenderBox.box_height : RenderBox → Option (Au × RenderBox)
  | .generic b => some (0, .generic b)
  | .image b =>
    let size := b.image.size
    let height := Au.from_px ((size.getD ⟨0, 0⟩).height)
    some (height, .image { b with base := { b.base with
      position := { b.base.position with
        size := { b.base.position.size with height := height } } } })
  | .text b =>
    let text_bounds := (b.run.metricsFor b.range).bounding_box
    let em_size := text_bounds.size.height
    (b.calculate_line_height em_size).map fun line_height =>
      (line_height, .text b)
  | .unscannedText _ => none

/-- Source `RenderBox::assign_width` per variant: Generic writes the
placeholder 45 px width; Image writes `image_width()`; Text is
preinitialized (no-op); UnscannedText `fail!`s (`none`). -/
def RenderBox.assign_width : RenderBox → Option RenderBox
  | .generic b => some (.generic { b with base := { b.base with
      position := { b.base.position with
        size := { b.base.position.size with width := Au.from_px 45 } } } })
  | .image b => some (.image { b with base := { b.base with
      position := { b.base.position with
        size := { b.base.position.size with width := b.image_width } } } })
  | .text b => some (.text b)
  | .unscannedText _ => none

/-- Source `RenderBox::minimum_and_preferred_widths` per variant; the Text
case is `text_minimum_and_preferred_widths` over the natural slices of its
range; UnscannedText `fail!`s (`none`). -/
def RenderBox.minimum_and_preferred_widths : RenderBox → Option (Au × Au)
  | .generic b =>
    let guessed_width := b.base.guess_width
    some (guessed_width, guessed_width)
  | .image b =>
    let guessed_width := b.base.guess_width
    let image_width := b.image_width
    some (guessed_width + image_width, guessed_width + image_width)
  | .text b =>
    some (text_minimum_and_preferred_widths b.base.guess_width
      (b.run.slicesFor b.range))
  | .unscannedText _ => none

/-- Source `SplitBoxResult` (box.rs lines 602-609); the sub-boxes are
represented by their ranges into the shared run. -/
inductive SplitBoxResult
  | CannotSplit (box : RenderBox)
  | SplitDidFit (left : Option Range) (right : Option Range)
  | SplitDidNotFit (left : Option Range) (right : Option Range)

/-- Source `RenderBox::split_to_width` per variant: Generic and Image cannot
split; Text runs the splitting algorithm; UnscannedText `fail!`s (`none`).
(Named `splitToWidth` to avoid shadowing the text-level function.) -/
def RenderBox.splitToWidth :
    RenderBox → Au → Bool → Option SplitBoxResult
  | .generic b, _, _ => some (.CannotSplit (.generic b))
  | .image b, _, _ => some (.CannotSplit (.image b))
  | .text b, max_width, starts_line =>
    let res := split_to_width b.range (b.run.slicesFor b.range) max_width
      starts_line
    some (if res.didFit then .SplitDidFit res.left res.right
      else .SplitDidNotFit res.left res.right)
  | .unscannedText _, _, _ => none

/-- Source `RenderBox::can_merge_with_box`: the trait default is `false`;
`UnscannedTextRenderBox` overrides it, comparing the two bases' font styles
and (short-circuit) text decorations when the other box is also unscanned
text.  `none` models the `fail!` inside the base queries when a box has no
ancestor element. -/
def RenderBox.can_merge_with_box : RenderBox → RenderBox → Option Bool
  | .unscannedText u, other =>
    if other.boxClass = .UnscannedTextRenderBoxClass then
      match RenderBoxBase.font_style u.base,
          RenderBoxBase.font_style other.base with
      | some f1, some f2 =>
        if f1 = f2 then
          match RenderBoxBase.text_decoration u.base,
              RenderBoxBase.text_decoration other.base with
          | some d1, some d2 => some (decide (d1 = d2))
          | _, _ => none
        else
          some false
      | _, _ => none
    else
      some false
  | _, _ => some false

/-! Display list and items (`src/components/gfx/display_list.rs`), and the
box walk that builds them (`RenderBoxUtils` in box.rs). -/

/-- Source `DisplayItemType` (display_list.rs lines 88-93). -/
inductive DisplayItemType
  | SolidColorDisplayItemType
  | TextDisplayItemType
  | ImageDisplayItemType
  | BorderDisplayItemType
deriving DecidableEq, Repr

/-- Source `BaseDisplayItem` (display_list.rs lines 96-107): bounds and the
unique id of the producing render box.  The extra payload `E` (hit-testing
data or nothing) is omitted. -/
structure BaseDisplayItem where
  bounds : Rect
  renderbox_uniq : Nat
deriving DecidableEq, Repr

/-- Source `SolidColorDisplayItem` (display_list.rs lines 110-113). -/
structure SolidColorDisplayItem where
  base : BaseDisplayItem
  color : Color
deriving DecidableEq, Repr

/-- Source `TextDisplayItem` (display_list.rs lines 116-121). -/
structure TextDisplayItem where
  base : BaseDisplayItem
  text_run : SendableTextRun
  range : Range
  color : Color
deriving DecidableEq, Repr

/-- Source `ImageDisplayItem` (display_list.rs lines 124-127); the shared
image handle is an abstract token. -/
structure ImageDisplayItem where
  base : BaseDisplayItem
  image : Nat
deriving DecidableEq, Repr

/-- Source `BorderDisplayItem` (display_list.rs lines 130-138): border
widths and per-side colors.  Note this item type carries NO per-side border
styles. -/
structure BorderDisplayItem where
  base : BaseDisplayItem
  border : SideOffsets
  color : SideOffsets2D Color
deriving DecidableEq, Repr

/-- Source `DisplayItem` (display_list.rs lines 79-84). -/
inductive DisplayItem
  | SolidColorDisplayItemClass (item : SolidColorDisplayItem)
  | TextDisplayItemClass (item : TextDisplayItem)
  | ImageDisplayItemClass (item : ImageDisplayItem)
  | BorderDisplayItemClass (item : BorderDisplayItem)
deriving DecidableEq, Repr

/-- Source `DisplayItem::base` (display_list.rs lines 189-199). -/
def DisplayItem.base : DisplayItem → BaseDisplayItem
  | .SolidColorDisplayItemClass solid_color => solid_color.base
  | .TextDisplayItemClass text => text.base
  | .ImageDisplayItemClass image_item => image_item.base
  | .BorderDisplayItemClass border => border.base

/-- Source `DisplayItem::ty` (display_list.rs lines 201-208). -/
def DisplayItem.ty : DisplayItem → DisplayItemType
  | .SolidColorDisplayItemClass _ => .SolidColorDisplayItemType
  | .TextDisplayItemClass _ => .TextDisplayItemType
  | .ImageDisplayItemClass _ => .ImageDisplayItemType
  | .BorderDisplayItemClass _ => .BorderDisplayItemType

/-- Source `DisplayItemKey` (display_list.rs lines 37-40): the producing
box's unique id together with the item kind tag. -/
structure DisplayItemKey where
  renderbox_uniq : Nat
  ty : DisplayItemType
deriving DecidableEq, Repr

/-- Source `DisplayList` (display_list.rs lines 31-33): an ordered sequence
of display items. -/
structure DisplayList where
  list : List DisplayItem
deriving DecidableEq, Repr

/-- Source `DisplayList::new`. -/
def DisplayList.new : DisplayList := ⟨[]⟩

/-- Source `DisplayList::append_item`: push at the end. -/
def DisplayList.append_item (dl : DisplayList) (item : DisplayItem) :
    DisplayList :=
  ⟨dl.list ++ [item]⟩

/-- Source `DisplayList::keys` (display_list.rs lines 68-75): the
recomputed-on-demand `(key, item)` sequence (the lazy iterator is modelled
as the list it yields). -/
def DisplayList.keys (dl : DisplayList) : List (DisplayItemKey × DisplayItem) :=
  dl.list.map fun it => (⟨it.base.renderbox_uniq, it.ty⟩, it)

/-- The draw calls the rasterizer's `RenderContext` receives, in order:
`draw_solid_color`, the text draw (`Font::draw_text_into_context` with the
run, range, baseline origin and color), `draw_image`, and `draw_border`
(bounds, widths, colors — the context call receives no border styles). -/
inductive DrawCommand
  | draw_solid_color (bounds : Rect) (color : Color)
  | draw_text (run : SendableTextRun) (range : Range)
      (baseline_origin : Point) (color : Color)
  | draw_image (bounds : Rect) (image : Nat)
  | draw_border (bounds : Rect) (border : SideOffsets)
      (color : SideOffsets2D Color)
deriving DecidableEq, Repr

/-- Source `DisplayItem::draw_into_context` (display_list.rs lines 142-187),
as the list of draw calls it issues for one item.  A Text item draws the
text at the baseline origin and, when the deserialized run has `underline`
set, additionally draws a solid-color underline bar. -/
def DisplayItem.draw_into_context : DisplayItem → List DrawCommand
  | .SolidColorDisplayItemClass solid_color =>
    [.draw_solid_color solid_color.base.bounds solid_color.color]
  | .TextDisplayItemClass text =>
    let new_run := text.text_run
    let origin := text.base.bounds.origin
    let baseline_origin : Point := ⟨origin.x, origin.y + new_run.ascent⟩
    [.draw_text new_run text.range baseline_origin text.color]
      ++ (if new_run.underline then
        let width := text.base.bounds.size.width
        let underline_size := new_run.underline_size
        let underline_bounds : Rect :=
          ⟨⟨baseline_origin.x, baseline_origin.y⟩, ⟨width, underline_size⟩⟩
        [.draw_solid_color underline_bounds text.color]
      else [])
  | .ImageDisplayItemClass image_item =>
    [.draw_image image_item.base.bounds image_item.image]
  | .BorderDisplayItemClass border =>
    [.draw_border border.base.bounds border.border border.color]

/-- Source `DisplayList::draw_into_context` (display_list.rs lines 58-66):
iterate the list once in order, drawing each item; the result is the draw
call trace sent to the render context. -/
def DisplayList.draw_into_context (dl : DisplayList) : List DrawCommand :=
  dl.list.foldl (fun acc item => acc ++ item.draw_into_context) []

/-- Source `RenderBoxUtils::paint_background_if_applicable` (box.rs lines
860-884): emit a solid-color item covering the absolute bounds when the
nearest ancestor element's background color has alpha not approximately
zero.  `none` models the `fail!` in `nearest_ancestor_element`.  The
produced item's `renderbox_uniq` is the producing box's `id()` (the display
list builder's `ExtraDisplayListData` wiring is outside `src/`). -/
def RenderBox.paint_background_if_applicable (box : RenderBox)
    (list : DisplayList) (absolute_bounds : Rect) : Option DisplayList :=
  (nearest_ancestor_element box.base.node).map fun nearest_ancestor_elt =>
    let background_color := nearest_ancestor_elt.style.background_color
    if !float_approx_eq background_color.alpha 0 then
      list.append_item (.SolidColorDisplayItemClass
        { base :=
            { bounds := absolute_bounds,
              renderbox_uniq := (RenderBoxBase.getId box.base).toNat },
          color := background_color })
    else
      list

/-- Source `RenderBoxUtils::paint_borders_if_applicable` (box.rs lines
888-924): fast path out when the border widths are all zero; otherwise emit
one border item with per-side widths and colors from the box's own style.
(box.rs also gathers per-side border styles, but display_list.rs's
`BorderDisplayItem` — the item type in this snapshot — has no style field.) -/
def RenderBox.paint_borders_if_applicable (box : RenderBox)
    (list : DisplayList) (abs_bounds : Rect) : DisplayList :=
  let base := box.base
  let border := base.model.border
  if border.is_zero then
    list
  else
    list.append_item (.BorderDisplayItemClass
      { base :=
          { bounds := abs_bounds,
            renderbox_uniq := (RenderBoxBase.getId base).toNat },
        border := ⟨border.top, border.right, border.bottom, border.left⟩,
        color := ⟨base.style.border_top_color, base.style.border_right_color,
          base.style.border_bottom_color, base.style.border_left_color⟩ })

/-- Source `RenderBoxUtils::build_display_list` (box.rs lines 940-1096):
compute the absolute bounds; if they do not intersect the dirty rect, emit
nothing and return.  Otherwise per variant: UnscannedText `fail!`s (`none`);
Text paints background, one text item, then borders; Generic paints
background then borders; Image paints background, the image item only when
decoded, then borders.  The `debug!`-gated debug frames are not emitted
(logging disabled). -/
def RenderBox.build_display_list (box : RenderBox) (dirty : Rect)
    (offset : Point) (list : DisplayList) : Option DisplayList :=
  let base := box.base
  let box_bounds := base.position
  let absolute_box_bounds := box_bounds.translate offset
  if absolute_box_bounds.intersects dirty then
    match box with
    | .unscannedText _ => none
    | .text text_box => do
      let list1 ← box.paint_background_if_applicable list absolute_box_bounds
      let nearest_ancestor_elt ← nearest_ancestor_element base.node
      let color := nearest_ancestor_elt.style.color
      let list2 := list1.append_item (.TextDisplayItemClass
        { base :=
            { bounds := absolute_box_bounds,
              renderbox_uniq := (RenderBoxBase.getId base).toNat },
          text_run := text_box.run.serialize,
          range := text_box.range,
          color := color })
      some (box.paint_borders_if_applicable list2 absolute_box_bounds)
    | .generic _ => do
      let list1 ← box.paint_background_if_applicable list absolute_box_bounds
      some (box.paint_borders_if_applicable list1 absolute_box_bounds)
    | .image image_box => do
      let list1 ← box.paint_background_if_applicable list absolute_box_bounds
      let list2 := match image_box.image.image with
        | some img => list1.append_item (.ImageDisplayItemClass
            { base :=
                { bounds := absolute_box_bounds,
                  renderbox_uniq := (RenderBoxBase.getId base).toNat },
              image := img })
        | none => list1
      some (box.paint_borders_if_applicable list2 absolute_box_bounds)
  else
    some list

/-! Layout-data attachment (`src/components/main/layout/aux.rs`). -/

/-- Modelled from the spec: the box/display fields of the per-node layout
record (`LayoutData.boxes` of `script::dom::node`, not under `src/`): the
node's display-list fragment and range. -/
structure DisplayBoxes where
  display_list : Option DisplayList
  range : Option Range
deriving DecidableEq, Repr

/-- Modelled from the spec: the per-node layout record (`LayoutData` of
`script::dom::node`, not under `src/`): box/style linkage plus the
display-list fragment/range fields. -/
structure LayoutData where
  style : Option CompleteStyle
  boxes : DisplayBoxes
deriving DecidableEq, Repr

/-- Modelled from the spec: `LayoutData::new` — an empty layout record. -/
def LayoutData.new : LayoutData :=
  { style := none, boxes := { display_list := none, range := none } }

/-- A DOM node's layout-data slot (`has_layout_data` / `set_layout_data` /
`write_layout_data` of `script::dom::node`, not under `src/`). -/
structure DomNode where
  layout_data : Option LayoutData
deriving DecidableEq, Repr

/-- Source `LayoutAuxMethods::initialize_layout_data` (aux.rs lines 21-33):
if the node already holds layout data, reset only
`data.boxes.display_list` and `data.boxes.range` and return `none`
("already existed"); otherwise attach a fresh record and return it
("newly created"). -/
def initialize_layout_data (node : DomNode) : Option LayoutData × DomNode :=
  match node.layout_data with
  | some data =>
    (none, { node with layout_data := some { data with
      boxes := { display_list := none, range := none } } })
  | none =>
    let data := LayoutData.new
    (some data, { node with layout_data := some data })

/-! Concrete fixtures used by witness theorems. -/

/-- Fixture: an opaque black color. -/
def sampleColor : Color := ⟨0, 0, 0, 1⟩

/-- Fixture: a computed style with defaulted values and an opaque black
background. -/
def sampleStyle : CompleteStyle :=
  { background_color := sampleColor, color := sampleColor,
    border_top_color := sampleColor, border_right_color := sampleColor,
    border_bottom_color := sampleColor, border_left_color := sampleColor,
    font_family := [.CSSFontFamilyGenericFamily .Serif],
    font_size := .CSSFontSizeOther,
    font_style := .CSSFontStyleNormal,
    text_decoration := .CSSTextDecorationNone,
    display := .CSSDisplayOtherValue,
    position := .CSSPositionStatic,
    float := .CSSFloatNone,
    line_height := .CSSLineHeightNormal,
    width := .Auto, margin_left := .Auto, margin_right := .Auto,
    padding_left := 0, padding_right := 0,
    border_left_width := 0, border_right_width := 0 }

/-- Fixture: an element node with no ancestors. -/
def sampleNode : NodeChain := ⟨⟨true, sampleStyle⟩, []⟩

/-- Fixture: a box base at the origin with a 10×10 position rect, zero
borders and paddings, debug id 7. -/
def sampleBase : RenderBoxBase :=
  ⟨sampleNode, ⟨⟨0, 0⟩, ⟨10, 10⟩⟩, ⟨⟨0, 0, 0, 0⟩, ⟨0, 0, 0, 0⟩⟩, 7⟩

/-- Fixture: a generic render box. -/
def sampleGeneric : RenderBox := .generic ⟨sampleBase⟩

/-- Fixture: an unscanned text box holding one space, caches empty. -/
def sampleUnscanned : UnscannedTextRenderBox := ⟨sampleBase, [' '], none, none⟩

/-- Fixture: a populated layout record. -/
def sampleLayoutData : LayoutData :=
  { style := some sampleStyle,
    boxes := { display_list := some DisplayList.new, range := some ⟨0, 5⟩ } }

theorem coverCount_nil (p : Nat) : coverCount [] p = 0 := rfl

theorem coverCount_cons (r : Range) (rs : List Range) (p : Nat) :
    coverCount (r :: rs) p
      = coverCount rs p + if r.containsPos p then 1 else 0 := by
  simp [coverCount, List.countP_cons]

theorem coverCount_append (l₁ l₂ : List Range) (p : Nat) :
    coverCount (l₁ ++ l₂) p = coverCount l₁ p + coverCount l₂ p := by
  simp [coverCount, List.countP_append]

theorem coverCount_singleton (r : Range) (p : Nat) :
    coverCount [r] p = if r.containsPos p then 1 else 0 := by
  simp [coverCount, List.countP_cons, List.countP_nil]

/-- Invariant of the `split_to_width` loop: at every point, the growing left
range, the right range (once created) and the skipped whitespace sub-ranges
exactly tile the character positions of the box range processed so far, and
the loop finishes with an exact tiling of the whole range. -/
theorem splitLoop_cover (startsLine : Bool) (rangeBegin rangeStop : Nat) :
    ∀ (slices : List Slice) (pos : Nat) (st : SplitLoopState),
      st.left.begin + st.left.length = pos →
      rangeBegin ≤ st.left.begin →
      pos + sliceLenSum slices = rangeStop →
      st.right = none →
      (st.count = 0 → st.left.length = 0) →
      (∀ q, coverCount st.trimmed q
        = if rangeBegin ≤ q ∧ q < st.left.begin then 1 else 0) →
      ∀ p,
        (if (splitLoop startsLine rangeStop slices pos st).left.containsPos p
            then 1 else 0)
          + coverCount
              (optToList (splitLoop startsLine rangeStop slices pos st).right) p
          + coverCount (splitLoop startsLine rangeStop slices pos st).trimmed p
          = if rangeBegin ≤ p ∧ p < rangeStop then 1 else 0 := by
  intro slices
  induction slices with
  | nil =>
    intro pos st hleft hge hsum hright h0 hchain p
    have hc := hchain p
    have hpos : pos = rangeStop := by
      simpa [sliceLenSum] using hsum
    simp only [splitLoop, hright, optToList, coverCount_nil]
    simp only [Range.containsPos] at hc ⊢
    split_ifs at hc ⊢ <;> omega
  | cons s rest ih =>
    intro pos st hleft hge hsum hright h0 hchain p
    have hsum' : (pos + s.len) + sliceLenSum rest = rangeStop := by
      simp only [sliceLenSum, List.map_cons, List.sum_cons] at hsum ⊢
      omega
    by_cases hadv : s.advance ≤ st.remaining
    · by_cases htrim : startsLine = true ∧ st.count = 0 ∧ s.whitespace = true
      · -- case: skipping leading trimmable whitespace
        have hlen0 : st.left.length = 0 := h0 htrim.2.1
        simp only [splitLoop, if_pos hadv, if_pos htrim]
        refine ih (pos + s.len)
          ⟨st.count + 1, st.remaining, st.left.shift_by s.len, st.right,
            st.trimmed ++ [⟨pos, s.len⟩]⟩ ?_ ?_ hsum' hright ?_ ?_ p
        · simp only [Range.shift_by]
          omega
        · simp only [Range.shift_by]
          omega
        · intro h
          simp at h
        · intro q
          have hc := hchain q
          dsimp only [Range.shift_by]
          rw [coverCount_append, coverCount_singleton]
          simp only [Range.containsPos] at hc ⊢
          split_ifs at hc ⊢ <;> omega
      · -- case: enlarging span
        simp only [splitLoop, if_pos hadv, if_neg htrim]
        refine ih (pos + s.len)
          ⟨st.count + 1, st.remaining - s.advance, st.left.extend_by s.len,
            st.right, st.trimmed⟩ ?_ ?_ hsum' hright ?_ ?_ p
        · simp only [Range.extend_by]
          omega
        · simpa only [Range.extend_by] using hge
        · intro h
          simp at h
        · intro q
          have hc := hchain q
          simpa only [Range.extend_by] using hc
    · -- the advance is more than the remaining width: the loop stops here
      have hle : pos + s.len ≤ rangeStop := by
        simp only [sliceLenSum, List.map_cons, List.sum_cons] at hsum
        omega
      have hc := hchain p
      by_cases hws : s.whitespace = true
      · by_cases hend : pos + s.len < rangeStop
        · simp only [splitLoop, if_neg hadv, if_pos hws, if_pos hend]
          rw [coverCount_append, coverCount_singleton]
          simp only [optToList, coverCount_singleton]
          simp only [Range.containsPos] at hc ⊢
          split_ifs at hc ⊢ <;> omega
        · simp only [splitLoop, if_neg hadv, if_pos hws, if_neg hend]
          rw [hright, coverCount_append, coverCount_singleton]
          simp only [optToList, coverCount_nil]
          simp only [Range.containsPos] at hc ⊢
          split_ifs at hc ⊢ <;> omega
      · by_cases hbeg : pos < rangeStop
        · simp only [splitLoop, if_neg hadv, if_neg hws, if_pos hbeg]
          simp only [optToList, coverCount_singleton]
          simp only [Range.containsPos] at hc ⊢
          split_ifs at hc ⊢ <;> omega
        · simp only [splitLoop, if_neg hadv, if_neg hws, if_neg hbeg]
          rw [hright]
          simp only [optToList, coverCount_nil]
          simp only [Range.containsPos] at hc ⊢
          split_ifs at hc ⊢ <;> omega

theorem optToList_none : optToList none = [] := rfl

theorem optToList_some (r : Range) : optToList (some r) = [r] := rfl

/-- C1: for every Text box range `R`, maximum width `W` and `startsLine`
flag, the left range returned by `split_to_width`, the right range (when one
is returned) and the trimmed whitespace slices are pairwise disjoint and
their union is exactly `R`: every character position of `R` is covered by
exactly one of them, and no position outside `R` is covered at all. -/
theorem split_to_width_partitions_range (range : Range) (slices : List Slice)
    (max_width : Au) (starts_line : Bool)
    (hcover : sliceLenSum slices = range.length) (p : Nat) :
    coverCount
        (optToList (split_to_width range slices max_width starts_line).left) p
      + coverCount
          (optToList (split_to_width range slices max_width starts_line).right)
          p
      + coverCount (split_to_width range slices max_width starts_line).trimmed
          p
      = if range.containsPos p then 1 else 0 := by
  have h := splitLoop_cover starts_line range.begin range.stop slices
    range.begin
    ⟨0, max_width, ⟨range.begin, 0⟩, none, []⟩
    rfl (le_refl _)
    (by simp [Range.stop, hcover])
    rfl
    (fun _ => rfl)
    (by
      intro q
      show coverCount [] q = if range.begin ≤ q ∧ q < range.begin then 1 else 0
      rw [coverCount_nil, if_neg (by omega)])
    p
  have hrhs : (if range.containsPos p then (1 : Nat) else 0)
      = if range.begin ≤ p ∧ p < range.stop then 1 else 0 :=
    if_congr Iff.rfl rfl rfl
  simp only [split_to_width]
  rw [hrhs]
  by_cases hl :
      (splitLoop starts_line range.stop slices range.begin
        ⟨0, max_width, ⟨range.begin, 0⟩, none, []⟩).left.length > 0
  · rw [if_pos hl, optToList_some, coverCount_singleton]
    exact h
  · have hnil :
        ¬(splitLoop starts_line range.stop slices range.begin
          ⟨0, max_width, ⟨range.begin, 0⟩, none, []⟩).left.containsPos p := by
      simp only [Range.containsPos]
      omega
    rw [if_neg hnil] at h
    rw [if_neg hl, optToList_none, coverCount_nil]
    exact h

theorem split_to_width_partitions_range_witness :
    sliceLenSum [⟨false, 50, 5⟩, ⟨true, 10, 1⟩, ⟨false, 50, 5⟩]
        = (⟨0, 11⟩ : Range).length ∧
    coverCount
        (optToList (split_to_width ⟨0, 11⟩
          [⟨false, 50, 5⟩, ⟨true, 10, 1⟩, ⟨false, 50, 5⟩] 50 true).left) 5
      + coverCount
          (optToList (split_to_width ⟨0, 11⟩
            [⟨false, 50, 5⟩, ⟨true, 10, 1⟩, ⟨false, 50, 5⟩] 50 true).right) 5
      + coverCount (split_to_width ⟨0, 11⟩
          [⟨false, 50, 5⟩, ⟨true, 10, 1⟩, ⟨false, 50, 5⟩] 50 true).trimmed 5
      = if (⟨0, 11⟩ : Range).containsPos 5 then 1 else 0 :=
  ⟨by decide,
    split_to_width_partitions_range ⟨0, 11⟩
      [⟨false, 50, 5⟩, ⟨true, 10, 1⟩, ⟨false, 50, 5⟩] 50 true (by decide) 5⟩

/-- The split loop never moves the left range's start backward, and any right
range it creates starts at or after the current slice position. -/
theorem splitLoop_mono (startsLine : Bool) (rangeStop : Nat) :
    ∀ (slices : List Slice) (pos : Nat) (st : SplitLoopState),
      st.left.begin
          ≤ (splitLoop startsLine rangeStop slices pos st).left.begin ∧
      (∀ r, (splitLoop startsLine rangeStop slices pos st).right = some r →
        st.right = some r ∨ pos ≤ r.begin) := by
  intro slices
  induction slices with
  | nil =>
    intro pos st
    exact ⟨le_refl _, fun r h => Or.inl h⟩
  | cons s rest ih =>
    intro pos st
    by_cases hadv : s.advance ≤ st.remaining
    · by_cases htrim : startsLine = true ∧ st.count = 0 ∧ s.whitespace = true
      · simp only [splitLoop, if_pos hadv, if_pos htrim]
        obtain ⟨ih1, ih2⟩ := ih (pos + s.len)
          ⟨st.count + 1, st.remaining, st.left.shift_by s.len, st.right,
            st.trimmed ++ [⟨pos, s.len⟩]⟩
        refine ⟨?_, ?_⟩
        · refine le_trans ?_ ih1
          show st.left.begin ≤ st.left.begin + s.len
          omega
        · intro r h
          rcases ih2 r h with h' | h'
          · exact Or.inl h'
          · exact Or.inr (by omega)
      · simp only [splitLoop, if_pos hadv, if_neg htrim]
        obtain ⟨ih1, ih2⟩ := ih (pos + s.len)
          ⟨st.count + 1, st.remaining - s.advance, st.left.extend_by s.len,
            st.right, st.trimmed⟩
        refine ⟨ih1, ?_⟩
        · intro r h
          rcases ih2 r h with h' | h'
          · exact Or.inl h'
          · exact Or.inr (by omega)
    · by_cases hws : s.whitespace = true
      · simp only [splitLoop, if_neg hadv, if_pos hws]
        refine ⟨le_refl _, ?_⟩
        intro r h
        by_cases hend : pos + s.len < rangeStop
        · rw [if_pos hend] at h
          cases h
          exact Or.inr (Nat.le_add_right _ _)
        · rw [if_neg hend] at h
          exact Or.inl h
      · simp only [splitLoop, if_neg hadv, if_neg hws]
        refine ⟨le_refl _, ?_⟩
        intro r h
        by_cases hbeg : pos < rangeStop
        · rw [if_pos hbeg] at h
          cases h
          exact Or.inr (le_refl _)
        · rw [if_neg hbeg] at h
          exact Or.inl h

/-- When the first slice processed is pure whitespace, `startsLine` is true
and the loop starts in its initial configuration, the positions of that slice
end up neither in the left range nor in any right range the loop produces. -/
theorem splitLoop_first_ws (rangeStop : Nat) (s0 : Slice) (rest : List Slice)
    (pos : Nat) (st : SplitLoopState) (hws : s0.whitespace = true)
    (hcount : st.count = 0) (hlb : st.left.begin = pos)
    (hlen : st.left.length = 0) (hright : st.right = none) :
    (0 < (splitLoop true rangeStop (s0 :: rest) pos st).left.length →
      pos + s0.len
        ≤ (splitLoop true rangeStop (s0 :: rest) pos st).left.begin) ∧
    (∀ r, (splitLoop true rangeStop (s0 :: rest) pos st).right = some r →
      pos + s0.len ≤ r.begin) := by
  simp only [splitLoop]
  by_cases hadv : s0.advance ≤ st.remaining
  · rw [if_pos hadv]
    by_cases htrim : True ∧ st.count = 0 ∧ s0.whitespace = true
    · rw [if_pos htrim]
      obtain ⟨m1, m2⟩ := splitLoop_mono true rangeStop rest (pos + s0.len)
        ⟨st.count + 1, st.remaining, st.left.shift_by s0.len, st.right,
          st.trimmed ++ [⟨pos, s0.len⟩]⟩
      refine ⟨?_, ?_⟩
      · intro _
        refine le_trans ?_ m1
        show pos + s0.len ≤ st.left.begin + s0.len
        omega
      · intro r h
        rcases m2 r h with h' | h'
        · rw [hright] at h'
          cases h'
        · exact h'
    · exact absurd ⟨trivial, hcount, hws⟩ htrim
  · rw [if_neg hadv, if_pos hws]
    refine ⟨?_, ?_⟩
    · intro h
      have h' : 0 < st.left.length := h
      omega
    · intro r h
      by_cases hend : pos + s0.len < rangeStop
      · have h' : some (⟨pos + s0.len, rangeStop - (pos + s0.len)⟩ : Range)
            = some r := by
          have h'' : (if pos + s0.len < rangeStop then
              some (⟨pos + s0.len, rangeStop - (pos + s0.len)⟩ : Range)
            else st.right) = some r := h
          rwa [if_pos hend] at h''
        cases h'
        exact Nat.le_refl _
      · have h'' : (if pos + s0.len < rangeStop then
            some (⟨pos + s0.len, rangeStop - (pos + s0.len)⟩ : Range)
          else st.right) = some r := h
        rw [if_neg hend, hright] at h''
        cases h''

/-- C4: when `startsLine` is true and the first natural slice of the range is
pure whitespace, the character positions of that slice belong neither to the
left range returned by `split_to_width` nor to the right range: the leading
whitespace is trimmed, not kept and not transferred. -/
theorem split_to_width_trims_leading_whitespace (range : Range) (s0 : Slice)
    (rest : List Slice) (max_width : Au) (hws : s0.whitespace = true)
    (p : Nat) (hp : p < range.begin + s0.len) :
    (∀ l, (split_to_width range (s0 :: rest) max_width true).left = some l →
      ¬l.containsPos p) ∧
    (∀ r, (split_to_width range (s0 :: rest) max_width true).right = some r →
      ¬r.containsPos p) := by
  simp only [split_to_width]
  obtain ⟨w1, w2⟩ := splitLoop_first_ws range.stop s0 rest range.begin
    ⟨0, max_width, ⟨range.begin, 0⟩, none, []⟩ hws rfl rfl rfl rfl
  refine ⟨?_, ?_⟩
  · intro l hl
    split_ifs at hl with hlen
    · cases hl
      have hb := w1 hlen
      simp only [Range.containsPos]
      omega
  · intro r hr
    have hb := w2 r hr
    simp only [Range.containsPos]
    omega

theorem split_to_width_trims_leading_whitespace_witness :
    (⟨true, 10, 1⟩ : Slice).whitespace = true ∧ (0 : Nat) < 0 + 1 ∧
    ((∀ l, (split_to_width ⟨0, 11⟩
        [⟨true, 10, 1⟩, ⟨false, 50, 5⟩, ⟨false, 50, 5⟩] 60 true).left = some l →
      ¬l.containsPos 0) ∧
    (∀ r, (split_to_width ⟨0, 11⟩
        [⟨true, 10, 1⟩, ⟨false, 50, 5⟩, ⟨false, 50, 5⟩] 60 true).right = some r →
      ¬r.containsPos 0)) :=
  ⟨rfl, by decide,
    split_to_width_trims_leading_whitespace ⟨0, 11⟩ ⟨true, 10, 1⟩
      [⟨false, 50, 5⟩, ⟨false, 50, 5⟩] 60 rfl 0 (by decide)⟩

/-- When every remaining slice's advance fits in the remaining budget, the
loop consumes all slices, never creates a right range, counts every slice,
and (once past the first piece) adds every slice's length to the left range. -/
theorem splitLoop_all_fit (startsLine : Bool) (rangeStop : Nat) :
    ∀ (slices : List Slice) (pos : Nat) (st : SplitLoopState),
      (∀ s ∈ slices, 0 ≤ s.advance) →
      sliceAdvanceSum slices ≤ st.remaining →
      (splitLoop startsLine rangeStop slices pos st).right = st.right ∧
      (splitLoop startsLine rangeStop slices pos st).count
          = st.count + slices.length ∧
      (1 ≤ st.count →
        (splitLoop startsLine rangeStop slices pos st).left.length
          = st.left.length + sliceLenSum slices) := by
  intro slices
  induction slices with
  | nil =>
    intro pos st _ _
    exact ⟨rfl, by simp [splitLoop], by intro _; simp [splitLoop, sliceLenSum]⟩
  | cons s rest ih =>
    intro pos st hnn hbudget
    have hs0 : 0 ≤ s.advance := hnn s (by simp)
    have hrest : ∀ x ∈ rest, 0 ≤ x.advance := fun x hx => hnn x (by simp [hx])
    have hsplit : sliceAdvanceSum (s :: rest)
        = s.advance + sliceAdvanceSum rest := by
      simp [sliceAdvanceSum]
    have hrest_nonneg : 0 ≤ sliceAdvanceSum rest := by
      apply List.sum_nonneg
      intro x hx
      obtain ⟨y, hy, rfl⟩ := List.mem_map.mp hx
      exact hrest y hy
    have hadv : s.advance ≤ st.remaining := by linarith
    by_cases htrim : startsLine = true ∧ st.count = 0 ∧ s.whitespace = true
    · simp only [splitLoop, if_pos hadv, if_pos htrim]
      obtain ⟨ih1, ih2, ih3⟩ := ih (pos + s.len)
        ⟨st.count + 1, st.remaining, st.left.shift_by s.len, st.right,
          st.trimmed ++ [⟨pos, s.len⟩]⟩ hrest
        (by show sliceAdvanceSum rest ≤ st.remaining; linarith)
      refine ⟨ih1, ?_, ?_⟩
      · rw [ih2]
        simp only [List.length_cons]
        omega
      · intro h1
        have := htrim.2.1
        omega
    · simp only [splitLoop, if_pos hadv, if_neg htrim]
      obtain ⟨ih1, ih2, ih3⟩ := ih (pos + s.len)
        ⟨st.count + 1, st.remaining - s.advance, st.left.extend_by s.len,
          st.right, st.trimmed⟩ hrest
        (by show sliceAdvanceSum rest ≤ st.remaining - s.advance; linarith)
      refine ⟨ih1, ?_, ?_⟩
      · rw [ih2]
        simp only [List.length_cons]
        omega
      · intro _
        have h3 := ih3 (by show 1 ≤ st.count + 1; omega)
        rw [h3]
        show (st.left.extend_by s.len).length + sliceLenSum rest
          = st.left.length + sliceLenSum (s :: rest)
        simp only [Range.extend_by, sliceLenSum, List.map_cons, List.sum_cons]
        omega

/-- The Boolean classification at the end of `split_to_width`, unfolded. -/
theorem bnot_count_or_isNone (n : Nat) (o : Option Range) :
    ((!(n == 1 || o.isNone)) = true) ↔ ¬(n = 1 ∨ o = none) := by
  cases o <;> simp [beq_iff_eq]

theorem split_to_width_count_def (range : Range) (slices : List Slice)
    (W : Au) (sl : Bool) :
    (split_to_width range slices W sl).piecesProcessedCount
      = (splitLoop sl range.stop slices range.begin
          ⟨0, W, ⟨range.begin, 0⟩, none, []⟩).count := rfl

theorem split_to_width_left_def (range : Range) (slices : List Slice)
    (W : Au) (sl : Bool) :
    (split_to_width range slices W sl).left
      = (if (splitLoop sl range.stop slices range.begin
            ⟨0, W, ⟨range.begin, 0⟩, none, []⟩).left.length > 0 then
          some (splitLoop sl range.stop slices range.begin
            ⟨0, W, ⟨range.begin, 0⟩, none, []⟩).left
        else none) := rfl

theorem split_to_width_right_def (range : Range) (slices : List Slice)
    (W : Au) (sl : Bool) :
    (split_to_width range slices W sl).right
      = (splitLoop sl range.stop slices range.begin
          ⟨0, W, ⟨range.begin, 0⟩, none, []⟩).right := rfl

theorem split_to_width_didFit_def (range : Range) (slices : List Slice)
    (W : Au) (sl : Bool) :
    (split_to_width range slices W sl).didFit
      = !((splitLoop sl range.stop slices range.begin
            ⟨0, W, ⟨range.begin, 0⟩, none, []⟩).count == 1
          || (if (splitLoop sl range.stop slices range.begin
                ⟨0, W, ⟨range.begin, 0⟩, none, []⟩).left.length > 0 then
              some (splitLoop sl range.stop slices range.begin
                ⟨0, W, ⟨range.begin, 0⟩, none, []⟩).left
            else none).isNone) := rfl

/-- A processed-pieces count other than one together with a non-empty left
range yields the `SplitDidFit` classification. -/
theorem classify_of_count_left (n : Nat) (l : Range) (hn : n ≠ 1)
    (hl : 0 < l.length) :
    (!(n == 1 || (if l.length > 0 then some l else none).isNone)) = true := by
  rw [if_pos hl]
  simp [hn]

/-- First loop step from the initial state when the slice fits and the
leading-whitespace trim fires. -/
theorem splitLoop_first_trim (sl : Bool) (stop : Nat) (s0 : Slice)
    (rest : List Slice) (pos : Nat) (W : Au) (hadv : s0.advance ≤ W)
    (ht : sl = true ∧ s0.whitespace = true) :
    splitLoop sl stop (s0 :: rest) pos ⟨0, W, ⟨pos, 0⟩, none, []⟩
      = splitLoop sl stop rest (pos + s0.len)
          ⟨1, W, ⟨pos + s0.len, 0⟩, none, [⟨pos, s0.len⟩]⟩ := by
  simp only [splitLoop]
  rw [if_pos hadv,
    if_pos (show sl = true ∧ True ∧ s0.whitespace = true from
      ⟨ht.1, trivial, ht.2⟩)]
  rfl

/-- First loop step from the initial state when the slice fits and the span
is enlarged. -/
theorem splitLoop_first_extend (sl : Bool) (stop : Nat) (s0 : Slice)
    (rest : List Slice) (pos : Nat) (W : Au) (hadv : s0.advance ≤ W)
    (ht : ¬(sl = true ∧ s0.whitespace = true)) :
    splitLoop sl stop (s0 :: rest) pos ⟨0, W, ⟨pos, 0⟩, none, []⟩
      = splitLoop sl stop rest (pos + s0.len)
          ⟨1, W - s0.advance, ⟨pos, s0.len⟩, none, []⟩ := by
  simp only [splitLoop]
  rw [if_pos hadv,
    if_neg (show ¬(sl = true ∧ True ∧ s0.whitespace = true) from
      fun h => ht ⟨h.1, h.2.2⟩)]
  simp [Range.extend_by]

/-- C3 (amended): if the maximum width is at least the box's preferred width
(second component of `text_minimum_and_preferred_widths`, with a non-negative
guessed width, non-negative slice advances and non-empty slices), then
`split_to_width` returns no right range, and the outcome is `SplitDidFit`
provided at least two slices were processed; with a single slice the code
classifies `SplitDidNotFit` even though the slice fit.  In general the
outcome is `SplitDidFit` unless either exactly one slice was processed
(whether or not it fit) or no left box was produced. -/
theorem split_to_width_wide_enough (range : Range) (slices : List Slice)
    (guessed max_width : Au) (starts_line : Bool)
    (hg : 0 ≤ guessed)
    (hnn : ∀ s ∈ slices, 0 ≤ s.advance)
    (hlen : ∀ s ∈ slices, 0 < s.len)
    (hW : (text_minimum_and_preferred_widths guessed slices).2 ≤ max_width) :
    (split_to_width range slices max_width starts_line).right = none ∧
    (2 ≤ slices.length →
      (split_to_width range slices max_width starts_line).didFit = true) ∧
    ((split_to_width range slices max_width starts_line).didFit = true ↔
      ¬((split_to_width range slices max_width
          starts_line).piecesProcessedCount = 1 ∨
        (split_to_width range slices max_width starts_line).left = none)) := by
  have hbudget : sliceAdvanceSum slices ≤ max_width := by
    simp only [text_minimum_and_preferred_widths] at hW
    linarith
  refine ⟨?_, ?_, ?_⟩
  · rw [split_to_width_right_def]
    have a1 := (splitLoop_all_fit starts_line range.stop slices range.begin
      ⟨0, max_width, ⟨range.begin, 0⟩, none, []⟩ hnn hbudget).1
    exact a1.trans rfl
  · intro h2
    cases slices with
    | nil => simp at h2
    | cons s0 srest =>
      cases srest with
      | nil => simp at h2
      | cons s1 rest =>
        have h00 : 0 ≤ s0.advance := hnn s0 (by simp)
        have h01 : 0 ≤ s1.advance := hnn s1 (by simp)
        have hrr : 0 ≤ sliceAdvanceSum rest := by
          apply List.sum_nonneg
          intro x hx
          obtain ⟨y, hy, rfl⟩ := List.mem_map.mp hx
          exact hnn y (by simp [hy])
        have hdecomp : sliceAdvanceSum (s0 :: s1 :: rest)
            = s0.advance + (s1.advance + sliceAdvanceSum rest) := by
          simp [sliceAdvanceSum]
        have hrdec : sliceAdvanceSum (s1 :: rest)
            = s1.advance + sliceAdvanceSum rest := by
          simp [sliceAdvanceSum]
        have hs0adv : s0.advance ≤ max_width := by linarith
        by_cases hcase : starts_line = true ∧ s0.whitespace = true
        · rw [split_to_width_didFit_def,
            splitLoop_first_trim starts_line range.stop s0 (s1 :: rest)
              range.begin max_width hs0adv hcase]
          obtain ⟨a1, a2, a3⟩ := splitLoop_all_fit starts_line range.stop
            (s1 :: rest) (range.begin + s0.len)
            ⟨1, max_width, ⟨range.begin + s0.len, 0⟩, none,
              [⟨range.begin, s0.len⟩]⟩
            (fun x hx => hnn x (List.mem_cons_of_mem s0 hx))
            (by show sliceAdvanceSum (s1 :: rest) ≤ max_width; linarith)
          apply classify_of_count_left
          · rw [a2]
            show 1 + (s1 :: rest).length ≠ 1
            simp only [List.length_cons]
            omega
          · rw [a3 (le_refl 1)]
            show 0 < 0 + sliceLenSum (s1 :: rest)
            have hp1 := hlen s1 (by simp)
            have hls : sliceLenSum (s1 :: rest)
                = s1.len + sliceLenSum rest := by
              simp [sliceLenSum]
            omega
        · rw [split_to_width_didFit_def,
            splitLoop_first_extend starts_line range.stop s0 (s1 :: rest)
              range.begin max_width hs0adv hcase]
          obtain ⟨a1, a2, a3⟩ := splitLoop_all_fit starts_line range.stop
            (s1 :: rest) (range.begin + s0.len)
            ⟨1, max_width - s0.advance, ⟨range.begin, s0.len⟩, none, []⟩
            (fun x hx => hnn x (List.mem_cons_of_mem s0 hx))
            (by
              show sliceAdvanceSum (s1 :: rest) ≤ max_width - s0.advance
              linarith)
          apply classify_of_count_left
          · rw [a2]
            show 1 + (s1 :: rest).length ≠ 1
            simp only [List.length_cons]
            omega
          · rw [a3 (le_refl 1)]
            show 0 < s0.len + sliceLenSum (s1 :: rest)
            have hp0 := hlen s0 (by simp)
            omega
  · rw [split_to_width_didFit_def, split_to_width_count_def,
      split_to_width_left_def]
    exact bnot_count_or_isNone _ _

theorem split_to_width_wide_enough_witness :
    ((0 : Au) ≤ 0 ∧ (∀ s ∈ [(⟨false, 50, 5⟩ : Slice), ⟨true, 10, 1⟩,
        ⟨false, 50, 5⟩], 0 ≤ s.advance) ∧
      (∀ s ∈ [(⟨false, 50, 5⟩ : Slice), ⟨true, 10, 1⟩, ⟨false, 50, 5⟩],
        0 < s.len) ∧
      (text_minimum_and_preferred_widths 0
        [⟨false, 50, 5⟩, ⟨true, 10, 1⟩, ⟨false, 50, 5⟩]).2 ≤ 110) ∧
    ((split_to_width ⟨0, 11⟩
        [⟨false, 50, 5⟩, ⟨true, 10, 1⟩, ⟨false, 50, 5⟩] 110 true).right = none ∧
      (2 ≤ ([(⟨false, 50, 5⟩ : Slice), ⟨true, 10, 1⟩,
          ⟨false, 50, 5⟩]).length →
        (split_to_width ⟨0, 11⟩
          [⟨false, 50, 5⟩, ⟨true, 10, 1⟩, ⟨false, 50, 5⟩] 110
          true).didFit = true) ∧
      ((split_to_width ⟨0, 11⟩
          [⟨false, 50, 5⟩, ⟨true, 10, 1⟩, ⟨false, 50, 5⟩] 110
          true).didFit = true ↔
        ¬((split_to_width ⟨0, 11⟩
            [⟨false, 50, 5⟩, ⟨true, 10, 1⟩, ⟨false, 50, 5⟩] 110
            true).piecesProcessedCount = 1 ∨
          (split_to_width ⟨0, 11⟩
            [⟨false, 50, 5⟩, ⟨true, 10, 1⟩, ⟨false, 50, 5⟩] 110
            true).left = none))) :=
  ⟨⟨by decide, by decide, by decide, by decide⟩,
    split_to_width_wide_enough ⟨0, 11⟩
      [⟨false, 50, 5⟩, ⟨true, 10, 1⟩, ⟨false, 50, 5⟩] 0 110 true
      (by decide) (by decide) (by decide) (by decide)⟩

/-- C3 (counterexample): a Text box whose range decomposes into a single
slice of advance 10 split at a maximum width of 10 satisfies "W is at least
the preferred width", yet `split_to_width` classifies the result
`SplitDidNotFit` (with no right range and a left box produced), because the
code returns `SplitDidNotFit` whenever exactly one slice was processed —
even when that slice fit. -/
theorem split_to_width_single_fitting_slice_not_fit :
    (text_minimum_and_preferred_widths 0 [⟨false, 10, 5⟩]).2 ≤ 10 ∧
    (split_to_width ⟨0, 5⟩ [⟨false, 10, 5⟩] 10 true).didFit = false ∧
    (split_to_width ⟨0, 5⟩ [⟨false, 10, 5⟩] 10 true).right = none ∧
    (split_to_width ⟨0, 5⟩ [⟨false, 10, 5⟩] 10 true).left = some ⟨0, 5⟩ := by
  decide

/-- C2: whenever a box's position rect translated by the offset does not
intersect the dirty rect, `build_display_list` appends nothing and returns
with the display list unchanged, for arbitrary disjoint rect pairs and all
box variants. -/
theorem build_display_list_culls_disjoint (box : RenderBox) (dirty : Rect)
    (offset : Point) (list : DisplayList)
    (h : (box.base.position.translate offset).intersects dirty = false) :
    RenderBox.build_display_list box dirty offset list = some list := by
  simp [RenderBox.build_display_list, h]

theorem build_display_list_culls_disjoint_witness :
    ((sampleGeneric.base.position.translate ⟨1000, 1000⟩).intersects
        ⟨⟨0, 0⟩, ⟨5, 5⟩⟩ = false) ∧
    RenderBox.build_display_list sampleGeneric ⟨⟨0, 0⟩, ⟨5, 5⟩⟩ ⟨1000, 1000⟩
        DisplayList.new = some DisplayList.new :=
  ⟨by decide,
    build_display_list_culls_disjoint sampleGeneric ⟨⟨0, 0⟩, ⟨5, 5⟩⟩
      ⟨1000, 1000⟩ DisplayList.new (by decide)⟩

/-- C5 (code evaluation): the reachable `RenderBoxBase::font_style` and
`RenderBoxBase::text_decoration` — the queries `can_merge_with_box` actually
performs — neither read nor write the per-box cache: the query results are
entirely independent of the cached `font_style`/`text_decoration` fields
(and, the queries being non-mutating, the cache of a fresh box stays
unpopulated forever). -/
theorem unscanned_cache_never_consulted :
    ∀ (u : UnscannedTextRenderBox) (c : Option FontStyle)
      (d : Option CSSTextDecoration) (other : RenderBox),
      RenderBox.can_merge_with_box
          (.unscannedText { u with font_style := c, text_decoration := d })
          other
        = RenderBox.can_merge_with_box (.unscannedText u) other ∧
      RenderBoxBase.font_style
          ({ u with font_style := c, text_decoration := d } :
            UnscannedTextRenderBox).base
        = RenderBoxBase.font_style u.base ∧
      RenderBoxBase.text_decoration
          ({ u with font_style := c, text_decoration := d } :
            UnscannedTextRenderBox).base
        = RenderBoxBase.text_decoration u.base :=
  fun _ _ _ _ => ⟨rfl, rfl, rfl⟩

theorem foldl_append_eq_flatten (f : DisplayItem → List DrawCommand) :
    ∀ (l : List DisplayItem) (acc : List DrawCommand),
      l.foldl (fun a it => a ++ f it) acc = acc ++ (l.map f).flatten := by
  intro l
  induction l with
  | nil =>
    intro acc
    simp
  | cons x xs ih =>
    intro acc
    simp [ih]

/-- C6 (amended): `draw_into_context` traverses the display list exactly
once in append order; a SolidColor item issues `draw_solid_color`, a Text
item issues the text draw at the baseline origin followed — when the run's
`underline` flag is set — by an additional `draw_solid_color` for the
underline bar, an Image item issues `draw_image`, and a Border item issues
`draw_border` with bounds, widths and colors only (this snapshot's
`BorderDisplayItem` carries no per-side styles). -/
theorem draw_into_context_trace :
    (∀ dl : DisplayList,
      dl.draw_into_context
        = (dl.list.map DisplayItem.draw_into_context).flatten) ∧
    (∀ solid_color : SolidColorDisplayItem,
      DisplayItem.draw_into_context (.SolidColorDisplayItemClass solid_color)
        = [.draw_solid_color solid_color.base.bounds solid_color.color]) ∧
    (∀ text : TextDisplayItem,
      DisplayItem.draw_into_context (.TextDisplayItemClass text)
        = [.draw_text text.text_run text.range
            ⟨text.base.bounds.origin.x,
              text.base.bounds.origin.y + text.text_run.ascent⟩ text.color]
          ++ (if text.text_run.underline then
              [.draw_solid_color
                ⟨⟨text.base.bounds.origin.x,
                    text.base.bounds.origin.y + text.text_run.ascent⟩,
                  ⟨text.base.bounds.size.width, text.text_run.underline_size⟩⟩
                text.color]
            else [])) ∧
    (∀ image_item : ImageDisplayItem,
      DisplayItem.draw_into_context (.ImageDisplayItemClass image_item)
        = [.draw_image image_item.base.bounds image_item.image]) ∧
    (∀ border : BorderDisplayItem,
      DisplayItem.draw_into_context (.BorderDisplayItemClass border)
        = [.draw_border border.base.bounds border.border border.color]) := by
  refine ⟨fun dl => ?_, fun _ => rfl, fun _ => rfl, fun _ => rfl,
    fun _ => rfl⟩
  simp only [DisplayList.draw_into_context]
  rw [foldl_append_eq_flatten]
  simp

/-- C6 (counterexample): a single underlined Text item causes TWO draw calls
— the text draw and an additional `draw_solid_color` for the underline bar —
refuting "for each item invokes exactly the draw call matching its kind". -/
theorem draw_into_context_underlined_text_two_calls :
    DisplayList.draw_into_context ⟨[.TextDisplayItemClass
        { base := { bounds := ⟨⟨0, 0⟩, ⟨100, 20⟩⟩, renderbox_uniq := 0 },
          text_run := { underline := true, ascent := 12, underline_size := 2 },
          range := ⟨0, 5⟩,
          color := ⟨0, 0, 0, 1⟩ }]⟩
      = [.draw_text ⟨true, 12, 2⟩ ⟨0, 5⟩ ⟨0, 12⟩ ⟨0, 0, 0, 1⟩,
        .draw_solid_color ⟨⟨0, 12⟩, ⟨100, 2⟩⟩ ⟨0, 0, 0, 1⟩] ∧
    (DisplayList.draw_into_context ⟨[.TextDisplayItemClass
        { base := { bounds := ⟨⟨0, 0⟩, ⟨100, 20⟩⟩, renderbox_uniq := 0 },
          text_run := { underline := true, ascent := 12, underline_size := 2 },
          range := ⟨0, 5⟩,
          color := ⟨0, 0, 0, 1⟩ }]⟩).length = 2 := by
  exact ⟨rfl, rfl⟩

/-- C7: `initialize_layout_data` is idempotent — on a node that already
holds a layout record it reports "already existed" (`none`), resets only the
record's display-list and range fields and preserves every other field; on a
node without a record it attaches a fresh record and reports "newly created"
(`some`); and a second call always reports "already existed". -/
theorem initialize_layout_data_idempotent :
    (∀ (n : DomNode) (d : LayoutData), n.layout_data = some d →
      initialize_layout_data n
        = (none, { n with layout_data := some { d with
            boxes := { display_list := none, range := none } } })) ∧
    (∀ n : DomNode, n.layout_data = none →
      initialize_layout_data n
        = (some LayoutData.new,
            { n with layout_data := some LayoutData.new })) ∧
    (∀ n : DomNode,
      (initialize_layout_data (initialize_layout_data n).2).1 = none) := by
  refine ⟨?_, ?_, ?_⟩
  · intro n d h
    simp [initialize_layout_data, h]
  · intro n h
    simp [initialize_layout_data, h]
  · intro n
    cases h : n.layout_data <;> simp [initialize_layout_data, h]

theorem initialize_layout_data_idempotent_witness :
    ((⟨some sampleLayoutData⟩ : DomNode).layout_data
        = some sampleLayoutData) ∧
    initialize_layout_data ⟨some sampleLayoutData⟩
      = (none, ⟨some { sampleLayoutData with
          boxes := { display_list := none, range := none } }⟩) :=
  ⟨rfl,
    initialize_layout_data_idempotent.1 ⟨some sampleLayoutData⟩
      sampleLayoutData rfl⟩

/-- C8: on an `UnscannedText` box the queries `box_height`,
`split_to_width`, `minimum_and_preferred_widths` and `assign_width` always
take the fatal branch (no value is ever returned), while
`is_whitespace_only` and `can_merge_with_box` remain callable
(`is_whitespace_only` tests that all characters are whitespace, and merging
with a non-unscanned box answers `false`). -/
theorem unscanned_text_queries_fail :
    ∀ u : UnscannedTextRenderBox,
      RenderBox.box_height (.unscannedText u) = none ∧
      (∀ (max_width : Au) (starts_line : Bool),
        RenderBox.splitToWidth (.unscannedText u) max_width starts_line
          = none) ∧
      RenderBox.minimum_and_preferred_widths (.unscannedText u) = none ∧
      RenderBox.assign_width (.unscannedText u) = none ∧
      RenderBox.is_whitespace_only (.unscannedText u)
        = u.text.all Char.isWhitespace ∧
      (∀ other : RenderBox,
        other.boxClass ≠ .UnscannedTextRenderBoxClass →
        RenderBox.can_merge_with_box (.unscannedText u) other = some false) := by
  intro u
  refine ⟨rfl, fun _ _ => rfl, rfl, rfl, rfl, ?_⟩
  intro other hne
  cases other with
  | generic b => rfl
  | image b => rfl
  | text b => rfl
  | unscannedText b => exact absurd rfl hne

theorem unscanned_text_queries_fail_witness :
    (RenderBox.boxClass sampleGeneric ≠ .UnscannedTextRenderBoxClass) ∧
    RenderBox.can_merge_with_box (.unscannedText sampleUnscanned)
        sampleGeneric = some false :=
  ⟨by decide,
    (unscanned_text_queries_fail sampleUnscanned).2.2.2.2.2 sampleGeneric
      (by decide)⟩

/-- C10: `box_height` on an Image box writes the computed height into the
box's `position.size.height` before returning it; on Generic boxes it
returns 0 and on Text boxes it returns the line-height-scaled metric height,
in both cases leaving the box (geometry included) entirely unchanged. -/
theorem box_height_side_effects :
    (∀ gb : GenericRenderBox,
      RenderBox.box_height (.generic gb) = some (0, .generic gb)) ∧
    (∀ ib : ImageRenderBox,
      RenderBox.box_height (.image ib)
        = some (Au.from_px ((ib.image.size.getD ⟨0, 0⟩).height),
            .image { ib with base := { ib.base with
              position := { ib.base.position with
                size := { ib.base.position.size with
                  height :=
                    Au.from_px ((ib.image.size.getD ⟨0, 0⟩).height) } } } })) ∧
    (∀ tb : TextRenderBox,
      (RenderBox.box_height (.text tb)).elim True fun res =>
        res.2 = .text tb) := by
  refine ⟨fun gb => rfl, fun ib => rfl, fun tb => ?_⟩
  simp only [RenderBox.box_height]
  cases hlh : tb.calculate_line_height
      ((tb.run.metricsFor tb.range).bounding_box.size.height) with
  | none => simp [hlh]
  | some line_height => simp [hlh]

theorem append_item_mem (l : DisplayList) (x it : DisplayItem) :
    it ∈ (l.append_item x).list ↔ it ∈ l.list ∨ it = x := by
  simp [DisplayList.append_item]

/-- Items present after `paint_background_if_applicable` either were already
in the list or carry the producing box's `id()` as their unique id. -/
theorem paint_background_mem (box : RenderBox) (l : DisplayList) (b : Rect)
    (l' : DisplayList)
    (h : box.paint_background_if_applicable l b = some l') :
    ∀ it ∈ l'.list, it ∈ l.list ∨
      it.base.renderbox_uniq = (RenderBoxBase.getId box.base).toNat := by
  simp only [RenderBox.paint_background_if_applicable,
    Option.map_eq_some'] at h
  obtain ⟨elt, _, hmap⟩ := h
  intro it hit
  split_ifs at hmap
  · rw [← hmap] at hit
    rcases (append_item_mem _ _ _).mp hit with h' | h'
    · exact Or.inl h'
    · subst h'
      exact Or.inr rfl
  · rw [← hmap] at hit
    exact Or.inl hit

/-- Items present after `paint_borders_if_applicable` either were already in
the list or carry the producing box's `id()` as their unique id. -/
theorem paint_borders_mem (box : RenderBox) (l : DisplayList) (b : Rect) :
    ∀ it ∈ (box.paint_borders_if_applicable l b).list, it ∈ l.list ∨
      it.base.renderbox_uniq = (RenderBoxBase.getId box.base).toNat := by
  intro it hit
  simp only [RenderBox.paint_borders_if_applicable] at hit
  split_ifs at hit
  · exact Or.inl hit
  · rcases (append_item_mem _ _ _).mp hit with h' | h'
    · exact Or.inl h'
    · subst h'
      exact Or.inr rfl

/-- Items in the list built by `build_display_list` either were already in
the incoming list or carry the producing box's `id()` as their unique id. -/
theorem build_display_list_mem (box : RenderBox) (dirty : Rect)
    (offset : Point) (l out : DisplayList)
    (h : RenderBox.build_display_list box dirty offset l = some out) :
    ∀ it ∈ out.list, it ∈ l.list ∨
      it.base.renderbox_uniq = (RenderBoxBase.getId box.base).toNat := by
  simp only [RenderBox.build_display_list] at h
  split_ifs at h with hint
  · cases box with
    | unscannedText u => cases h
    | generic gb =>
      cases hbg : RenderBox.paint_background_if_applicable (RenderBox.generic gb)
          l ((RenderBox.generic gb).base.position.translate offset) with
      | none =>
        rw [hbg] at h
        simp at h
      | some list1 =>
        rw [hbg] at h
        simp at h
        subst h
        intro it hit
        rcases paint_borders_mem _ list1 _ it hit with h' | h'
        · exact paint_background_mem _ l _ list1 hbg it h'
        · exact Or.inr h'
    | text tb =>
      cases hbg : RenderBox.paint_background_if_applicable (RenderBox.text tb)
          l ((RenderBox.text tb).base.position.translate offset) with
      | none =>
        rw [hbg] at h
        simp at h
      | some list1 =>
        rw [hbg] at h
        cases helt : nearest_ancestor_element (RenderBox.text tb).base.node with
        | none =>
          rw [helt] at h
          simp at h
        | some elt =>
          rw [helt] at h
          simp at h
          subst h
          intro it hit
          rcases paint_borders_mem _ _ _ it hit with h' | h'
          · rcases (append_item_mem list1 _ _).mp h' with h'' | h''
            · exact paint_background_mem _ l _ list1 hbg it h''
            · subst h''
              exact Or.inr rfl
          · exact Or.inr h'
    | image ib =>
      cases hbg : RenderBox.paint_background_if_applicable (RenderBox.image ib)
          l ((RenderBox.image ib).base.position.translate offset) with
      | none =>
        rw [hbg] at h
        simp at h
      | some list1 =>
        rw [hbg] at h
        simp at h
        subst h
        intro it hit
        rcases paint_borders_mem _ _ _ it hit with h' | h'
        · cases himg : ib.image.image with
          | some img =>
            rw [himg] at h'
            rcases (append_item_mem list1 _ _).mp h' with h'' | h''
            · exact paint_background_mem _ l _ list1 hbg it h''
            · subst h''
              exact Or.inr rfl
          | none =>
            rw [himg] at h'
            exact paint_background_mem _ l _ list1 hbg it h'
        · exact Or.inr h'
  · cases h
    intro it hit
    exact Or.inl hit

/-- C9: `RenderBoxBase::id()` returns 0 regardless of the debug id stored at
construction; consequently every `DisplayItemKey` over items a box produces
(into an empty list) has owning-box id 0, so two such keys are equal exactly
when their item-kind tags are equal — keys do not distinguish originating
boxes. -/
theorem renderbox_id_always_zero :
    (∀ b : RenderBoxBase, RenderBoxBase.getId b = 0) ∧
    (∀ (box : RenderBox) (dirty : Rect) (offset : Point) (out : DisplayList),
      RenderBox.build_display_list box dirty offset DisplayList.new
          = some out →
      (∀ kv ∈ out.keys, kv.1.renderbox_uniq = 0) ∧
      (∀ kv1 ∈ out.keys, ∀ kv2 ∈ out.keys,
        kv1.1 = kv2.1 ↔ kv1.1.ty = kv2.1.ty)) := by
  refine ⟨fun _ => rfl, ?_⟩
  intro box dirty offset out h
  have hmem := build_display_list_mem box dirty offset DisplayList.new out h
  have huniq : ∀ it ∈ out.list, it.base.renderbox_uniq = 0 := by
    intro it hit
    rcases hmem it hit with h' | h'
    · simp [DisplayList.new] at h'
    · rw [h']
      rfl
  have hkeys : ∀ kv ∈ out.keys, kv.1.renderbox_uniq = 0 := by
    intro kv hkv
    simp only [DisplayList.keys, List.mem_map] at hkv
    obtain ⟨it, hit, rfl⟩ := hkv
    exact huniq it hit
  refine ⟨hkeys, ?_⟩
  intro kv1 h1 kv2 h2
  have e1 := hkeys kv1 h1
  have e2 := hkeys kv2 h2
  constructor
  · intro he
    rw [he]
  · intro hty
    calc kv1.1 = ⟨kv1.1.renderbox_uniq, kv1.1.ty⟩ := rfl
      _ = ⟨kv2.1.renderbox_uniq, kv2.1.ty⟩ := by rw [e1, e2, hty]
      _ = kv2.1 := rfl

theorem renderbox_id_always_zero_witness :
    (RenderBox.build_display_list (.unscannedText sampleUnscanned)
        ⟨⟨0, 0⟩, ⟨5, 5⟩⟩ ⟨1000, 1000⟩ DisplayList.new
      = some DisplayList.new) ∧
    ((∀ kv ∈ DisplayList.new.keys, kv.1.renderbox_uniq = 0) ∧
      (∀ kv1 ∈ DisplayList.new.keys, ∀ kv2 ∈ DisplayList.new.keys,
        kv1.1 = kv2.1 ↔ kv1.1.ty = kv2.1.ty)) :=
  ⟨by decide,
    renderbox_id_always_zero.2 (.unscannedText sampleUnscanned)
      ⟨⟨0, 0⟩, ⟨5, 5⟩⟩ ⟨1000, 1000⟩ DisplayList.new (by decide)⟩
